import Mathlib

/-!
# Verification of the httpcodec HTTP/1.x codec

A shallow embedding of the incremental HTTP/1.x codec (crate `httpcodec`)
and proofs about it.  Bytes are modelled as `Nat` (values `< 256` on the
wire), byte strings as `List Nat`, and each Rust decoder/encoder becomes a
pure Lean function that threads its state explicitly.  Fallible operations
return `Except ErrKind`.  Decoders that the Rust side drives through
repeated `decode` calls are modelled as single-call stream processors: one
call over the full input with an explicit end-of-stream flag, which is the
configuration all of the statements below are about.
-/

namespace Httpcodec

/-- The `bytecodec` error kinds surfaced by the crate (`ErrorKind`). -/
inductive ErrKind where
  | invalidInput
  | unexpectedEos
  | incompleteDecoding
  | decoderTerminated
  | encoderFull
  | other
  deriving DecidableEq, Repr

instance {ε α : Type} [DecidableEq ε] [DecidableEq α] : DecidableEq (Except ε α) := by
  intro a b
  cases a <;> cases b
  case error.error e e' =>
    exact if h : e = e' then .isTrue (by rw [h]) else .isFalse (by simp [h])
  case ok.ok v v' =>
    exact if h : v = v' then .isTrue (by rw [h]) else .isFalse (by simp [h])
  all_goals exact .isFalse (by simp)

/-- `bytecodec::ByteCount`. -/
inductive ByteCount where
  | finite (n : Nat)
  | infinite
  | unknown
  deriving DecidableEq, Repr

/-! ## Lexical predicates (`util.rs`, `token.rs`) -/

/-- `util::is_digit`: ASCII digit. -/
def is_digit (b : Nat) : Bool := 48 ≤ b ∧ b ≤ 57

/-- `util::is_alpha`: ASCII letter. -/
def is_alpha (b : Nat) : Bool := (97 ≤ b ∧ b ≤ 122) ∨ (65 ≤ b ∧ b ≤ 90)

/-- `util::is_tchar`: RFC 7230 token character. -/
def is_tchar (b : Nat) : Bool :=
  b = 33 ∨ b = 35 ∨ b = 36 ∨ b = 37 ∨ b = 38 ∨ b = 39 ∨ b = 42 ∨ b = 43 ∨
  b = 45 ∨ b = 46 ∨ b = 94 ∨ b = 95 ∨ b = 96 ∨ b = 124 ∨ b = 126 ∨
  is_digit b ∨ is_alpha b

/-- `util::is_vchar`: visible ASCII, `0x21 ..= 0x7E`. -/
def is_vchar (b : Nat) : Bool := 0x21 ≤ b ∧ b ≤ 0x7E

/-- `util::is_whitespace`: space or horizontal tab. -/
def is_whitespace (b : Nat) : Bool := b = 32 ∨ b = 9

/-- ASCII lower-casing of a single byte (`u8::to_ascii_lowercase`). -/
def asciiLower (b : Nat) : Nat := if 65 ≤ b ∧ b ≤ 90 then b + 32 else b

/-- `str::eq_ignore_ascii_case` on byte strings. -/
def eqIgnoreAsciiCase (a b : List Nat) : Bool :=
  a.map asciiLower = b.map asciiLower

/-- Convenience: the bytes of an ASCII string literal (all string literals
in this development are ASCII, where UTF-8 bytes and code points agree). -/
def bytesOf (s : String) : List Nat := s.data.map Char.toNat

/-! ## `HeaderField::new` (`header.rs` lines 132-136) -/

/-- `HeaderField::new(name, value)`: `name` must be all `tchar` and `value`
all `vchar`; any violation is `ErrorKind::InvalidInput`. -/
def headerFieldNew (name value : List Nat) : Except ErrKind (List Nat × List Nat) :=
  if name.all is_tchar then
    if value.all is_vchar then .ok (name, value) else .error .invalidInput
  else .error .invalidInput

/-! ## Decimal integer parsing (Rust `str::parse::<u64>` / `::<u16>`)

`u64::from_str` (and `u16::from_str`) accept an optional leading `+`
followed by one or more ASCII decimal digits, and fail on overflow.  The
input reaching it here is raw header/status bytes; any byte that is not an
ASCII digit (including non-UTF-8 bytes, which would already have failed the
`str` conversion) makes the parse fail. -/

/-- Value of a non-empty all-digit byte string. -/
def digitsVal (ds : List Nat) : Nat := ds.foldl (fun a d => a * 10 + (d - 48)) 0

/-- The digit-run core of Rust unsigned-integer parsing. -/
def digitsCore (maxVal : Nat) (ds : List Nat) : Option Nat :=
  if ds ≠ [] ∧ ds.all is_digit ∧ digitsVal ds ≤ maxVal then some (digitsVal ds) else none

/-- Rust unsigned-integer parsing on bytes, bounded by the type's maximum:
an optional leading `+`, then one or more ASCII digits, no overflow. -/
def parseUnsigned (maxVal : Nat) (bs : List Nat) : Option Nat :=
  match bs with
  | b :: ds => if b = 43 then digitsCore maxVal ds else digitsCore maxVal (b :: ds)
  | [] => digitsCore maxVal []

/-! ## Body dispatcher (`body.rs`, `BodyDecoderInner::initialize`, lines 259-277)

`initialize` scans the header fields in order.  The first field whose name
equals `content-length` (ASCII-case-insensitively) moves the decoder to the
fixed-length state with the parsed value; a parse failure is
`ErrorKind::InvalidInput`.  The first field named `transfer-encoding` must
have the exact value `chunked` (`track_assert_eq!(.., ErrorKind::Other)`)
and moves the decoder to the chunked state.  If no field matches, the
decoder stays length-less. -/

/-- The three reachable states of `BodyDecoderInner` after `initialize`. -/
inductive BodyKind where
  | withoutLength
  | withLength (n : Nat)
  | chunked
  deriving DecidableEq, Repr

/-- A header field as (name bytes, value bytes). -/
abbrev Field := List Nat × List Nat

/-- `BodyDecoderInner::initialize`, as a function of the header fields. -/
def bodyInit : List Field → Except ErrKind BodyKind
  | [] => .ok .withoutLength
  | (name, value) :: rest =>
    if eqIgnoreAsciiCase name (bytesOf "content-length") then
      match parseUnsigned (2 ^ 64 - 1) value with
      | some n => .ok (.withLength n)
      | none => .error .invalidInput
    else if eqIgnoreAsciiCase name (bytesOf "transfer-encoding") then
      if value = bytesOf "chunked" then .ok .chunked else .error .other
    else
      bodyInit rest

/-- A field name that triggers a body-framing transition. -/
def isFraming (f : Field) : Bool :=
  eqIgnoreAsciiCase f.1 (bytesOf "content-length") ∨
  eqIgnoreAsciiCase f.1 (bytesOf "transfer-encoding")

/-- Core characterisation shared by the dispatcher claims: `initialize` is
fully determined by the first framing field (if any). -/
theorem bodyInit_eq_find (fields : List Field) :
    bodyInit fields =
      match fields.find? isFraming with
      | none => .ok .withoutLength
      | some f =>
        if eqIgnoreAsciiCase f.1 (bytesOf "content-length") then
          match parseUnsigned (2 ^ 64 - 1) f.2 with
          | some n => .ok (.withLength n)
          | none => .error .invalidInput
        else if f.2 = bytesOf "chunked" then .ok .chunked
        else .error .other := by
  induction fields with
  | nil => simp [bodyInit]
  | cons f rest ih =>
    obtain ⟨n, v⟩ := f
    by_cases h1 : eqIgnoreAsciiCase n (bytesOf "content-length")
    · simp [bodyInit, h1, List.find?_cons, isFraming]
    · by_cases h2 : eqIgnoreAsciiCase n (bytesOf "transfer-encoding")
      · simp [bodyInit, h1, h2, List.find?_cons, isFraming]
      · simpa [bodyInit, h1, h2, List.find?_cons, isFraming] using ih

/-- C2: `BodyDecoder::initialize` scans the header fields in order with
ASCII-case-insensitive name comparison; the first field named
`Content-Length` moves it to the fixed-length state bounded by that field's
parsed numeric value, the first field named `Transfer-Encoding` with value
`chunked` moves it to the chunked state, and if no such field occurs it
stays length-less.  Later fields cause no further transition: the result is
a function of the first framing field alone, so when both names are present
whichever appears first determines the body variant. -/
theorem bodyInit_first_framing_field_wins (fields : List Field) :
    bodyInit fields =
      match fields.find? isFraming with
      | none => .ok .withoutLength
      | some f =>
        if eqIgnoreAsciiCase f.1 (bytesOf "content-length") then
          match parseUnsigned (2 ^ 64 - 1) f.2 with
          | some n => .ok (.withLength n)
          | none => .error .invalidInput
        else if f.2 = bytesOf "chunked" then .ok .chunked
        else .error .other :=
  bodyInit_eq_find fields

/-- C3 counterexample: a header whose first (and only) framing field is
`Transfer-Encoding: gzip` makes `initialize` fail with `ErrorKind::Other`,
not `ErrorKind::InvalidInput` as the claim states. -/
theorem bodyInit_te_gzip_not_invalidInput :
    bodyInit [(bytesOf "Transfer-Encoding", bytesOf "gzip")] = .error .other ∧
      bodyInit [(bytesOf "Transfer-Encoding", bytesOf "gzip")] ≠ .error .invalidInput := by
  constructor
  · rfl
  · intro h
    rw [show bodyInit [(bytesOf "Transfer-Encoding", bytesOf "gzip")] = .error .other from rfl] at h
    cases h

/-- C3 (amended): whenever the first framing field of the header is a
`Transfer-Encoding` field whose value is not exactly `chunked`,
`BodyDecoder::initialize` fails, and the error kind is `Other`. -/
theorem bodyInit_nonchunked_te_is_other (fields : List Field) (f : Field)
    (hfind : fields.find? isFraming = some f)
    (hcl : ¬ eqIgnoreAsciiCase f.1 (bytesOf "content-length"))
    (hval : f.2 ≠ bytesOf "chunked") :
    bodyInit fields = .error .other := by
  rw [bodyInit_eq_find, hfind]
  simp [hcl, hval]

/-- Witness for `bodyInit_nonchunked_te_is_other` at a concrete header. -/
theorem bodyInit_nonchunked_te_is_other_witness :
    bodyInit [(bytesOf "x", bytesOf "y"), (bytesOf "transfer-ENCODING", bytesOf "x")] =
      .error .other :=
  bodyInit_nonchunked_te_is_other _ (bytesOf "transfer-ENCODING", bytesOf "x")
    (by decide) (by decide) (by decide)

/-- C10: `HeaderField::new` fails with `InvalidInput` whenever the value
contains any byte outside `0x21 ..= 0x7E`; in particular space (`0x20`) and
horizontal tab (`0x09`) are outside that range, so a value with interior
whitespace can never be constructed through the checked constructor. -/
theorem headerFieldNew_rejects_nonvchar (name value : List Nat) (b : Nat)
    (hmem : b ∈ value) (hb : ¬ (0x21 ≤ b ∧ b ≤ 0x7E)) :
    headerFieldNew name value = .error .invalidInput ∧
      is_vchar 32 = false ∧ is_vchar 9 = false := by
  refine ⟨?_, rfl, rfl⟩
  have hv : value.all is_vchar = false := by
    rw [List.all_eq_false]
    exact ⟨b, hmem, by simpa [is_vchar] using hb⟩
  unfold headerFieldNew
  rw [hv]
  by_cases ht : name.all is_tchar <;> simp [ht]

/-- Witness for `headerFieldNew_rejects_nonvchar`: a value holding a single
space byte is rejected. -/
theorem headerFieldNew_rejects_nonvchar_witness :
    headerFieldNew (bytesOf "foo") [32] = .error .invalidInput :=
  (headerFieldNew_rejects_nonvchar (bytesOf "foo") [32] 32 (by decide) (by decide)).1

/-! ## Chunk-size decoder (`chunked_body.rs`, `ChunkSizeDecoder`, lines 201-253)

State is `(size, remaining)`; `remaining = Finite 0` means idle,
`Finite 1` means "a `\r` was seen, expect `\n`", `Unknown` means reading
hex digits.  `size` is a `u64`, so accumulation wraps modulo `2 ^ 64`. -/

/-- The hex-digit table of `ChunkSizeDecoder::decode`'s `match`. -/
def hexDigitVal (b : Nat) : Option Nat :=
  if 48 ≤ b ∧ b ≤ 57 then some (b - 48)
  else if 97 ≤ b ∧ b ≤ 102 then some (b - 97 + 10)
  else if 65 ≤ b ∧ b ≤ 70 then some (b - 65 + 10)
  else none

/-- A byte the chunk-size decoder treats as a hex digit. -/
def isHexByte (b : Nat) : Bool := (hexDigitVal b).isSome

/-- The byte loop of `ChunkSizeDecoder::decode`; `i` counts consumed bytes. -/
def csRun : Nat → ByteCount → List Nat → Bool → Nat →
    Except ErrKind ((Nat × ByteCount) × Nat)
  | size, rem, [], eos, i =>
    if eos then .error .unexpectedEos else .ok ((size, rem), i)
  | size, rem, b :: bs, eos, i =>
    if rem = .finite 1 then
      if b = 10 then .ok ((size, .finite 0), i + 1) else .error .invalidInput
    else if b = 13 then csRun size (.finite 1) bs eos (i + 1)
    else
      match hexDigitVal b with
      | some n => csRun ((size * 16 + n) % 2 ^ 64) rem bs eos (i + 1)
      | none => .error .invalidInput

/-- `ChunkSizeDecoder::decode` over a state `(size, remaining)`. -/
def chunkSizeDecode (st : Nat × ByteCount) (buf : List Nat) (eos : Bool) :
    Except ErrKind ((Nat × ByteCount) × Nat) :=
  if st.2 = .finite 0 then .ok (st, 0) else csRun st.1 st.2 buf eos 0

/-- `ChunkSizeDecoder::finish_decoding`: emit the size and reset. -/
def chunkSizeFinish (st : Nat × ByteCount) : Except ErrKind (Nat × (Nat × ByteCount)) :=
  if st.2 = .finite 0 then .ok (st.1, (0, .unknown)) else .error .incompleteDecoding

/-- The fresh chunk-size decoder state (`ChunkSizeDecoder::default`). -/
def csFresh : Nat × ByteCount := (0, .unknown)

/-- The accumulation `size = (size * 16 + digit) mod 2^64` over hex digits. -/
def hexAcc (size : Nat) (ds : List Nat) : Nat :=
  ds.foldl (fun a d => (a * 16 + (hexDigitVal d).getD 0) % 2 ^ 64) size

theorem csRun_hex_digits (ds : List Nat) (hds : ds.all isHexByte)
    (size i : Nat) (tail : List Nat) (eos : Bool) :
    csRun size .unknown (ds ++ tail) eos i =
      csRun (hexAcc size ds) .unknown tail eos (i + ds.length) := by
  induction ds generalizing size i with
  | nil => simp [hexAcc]
  | cons d ds ih =>
    simp only [List.all_cons, Bool.and_eq_true] at hds
    obtain ⟨hd, hds⟩ := hds
    obtain ⟨n, hn⟩ := Option.isSome_iff_exists.mp hd
    have hd13 : d ≠ 13 := by
      intro h; subst h
      simp [hexDigitVal] at hn
    rw [List.cons_append, csRun]
    simp only [reduceCtorEq, if_false, hd13, if_false, hn]
    rw [ih hds]
    simp only [hexAcc, List.foldl_cons, hn, Option.getD_some, List.length_cons]
    rw [show i + 1 + ds.length = i + (ds.length + 1) from by omega]

/-- C4: from the fresh state, `ChunkSizeDecoder::decode` accumulates
`size = size*16 + digit` (as a wrapping `u64`) over ASCII hex digits
`0-9`/`a-f`/`A-F`, transitions to an expect-`\n` state on `\r`, and
completes when `\n` follows, having consumed exactly the size line; after
that `finish_decoding` returns the accumulated size and resets.  During
accumulation any byte that is neither a hex digit nor `\r` fails with
`InvalidInput`, and any byte other than `\n` directly after `\r` fails with
`InvalidInput`. -/
theorem chunkSizeDecode_spec (ds rest : List Nat) (b : Nat) (eos : Bool)
    (hds : ds.all isHexByte) :
    (chunkSizeDecode csFresh (ds ++ [13, 10] ++ rest) eos =
        .ok ((hexAcc 0 ds, .finite 0), ds.length + 2) ∧
      chunkSizeFinish (hexAcc 0 ds, .finite 0) = .ok (hexAcc 0 ds, csFresh)) ∧
    (¬ isHexByte b → b ≠ 13 →
      chunkSizeDecode csFresh (ds ++ b :: rest) eos = .error .invalidInput) ∧
    (b ≠ 10 →
      chunkSizeDecode csFresh (ds ++ 13 :: b :: rest) eos = .error .invalidInput) := by
  refine ⟨⟨?_, by simp [chunkSizeFinish, csFresh]⟩, ?_, ?_⟩
  · show csRun 0 .unknown (ds ++ [13, 10] ++ rest) eos 0 = _
    rw [List.append_assoc, csRun_hex_digits ds hds]
    simp [csRun]
  · intro hbad h13
    show csRun 0 .unknown (ds ++ b :: rest) eos 0 = _
    rw [csRun_hex_digits ds hds]
    have : hexDigitVal b = none := by
      cases h : hexDigitVal b with
      | none => rfl
      | some n => exact absurd (by simp [isHexByte, h]) hbad
    simp [csRun, h13, this]
  · intro h10
    show csRun 0 .unknown (ds ++ 13 :: b :: rest) eos 0 = _
    rw [csRun_hex_digits ds hds]
    simp [csRun, h10]

/-- Witness for `chunkSizeDecode_spec`: the size line `9f\r\n`, the bad size
byte `g` and the bad post-`\r` byte `x`. -/
theorem chunkSizeDecode_spec_witness :
    chunkSizeDecode csFresh (bytesOf "9f\r\n") true = .ok ((0x9f, .finite 0), 4) ∧
      chunkSizeDecode csFresh (bytesOf "9fg") true = .error .invalidInput ∧
      chunkSizeDecode csFresh (bytesOf "9f\rx") true = .error .invalidInput := by
  have h := chunkSizeDecode_spec (bytesOf "9f") [] 103 true (by decide)
  have h' := chunkSizeDecode_spec (bytesOf "9f") [120] 120 true (by decide)
  refine ⟨?_, ?_, ?_⟩
  · have := h.1.1
    simpa using this
  · have := h.2.1 (by decide) (by decide)
    simpa using this
  · have := h'.2.2 (by decide)
    simpa using this

/-! ## Chunked body decoder (`chunked_body.rs`, `ChunkedBodyDecoder`, lines 132-194)

Instantiated, as in the crate's own tests, with a
`RemainingBytesDecoder` payload behind the `Slice` combinator: the inner
decoder accumulates every byte the slice lets through.  A single `decode`
call from the fresh state is modelled as a recursion over the input stream:
at each loop head the slice is suspended (its consumable budget is 0) and
either a trailing-CRLF decoder is pending (`crlfPending`) or the next
chunk-size line is read.  `eosFlag` is the decoder's `eos` field, set when
a zero chunk size was read.  The `complete` outcome carries the accumulated
body (what `finish_decoding` then returns) and the consumed byte count; the
`suspended` outcome is a return with the decoder not yet idle. -/

/-- Outcome of a single `ChunkedBodyDecoder::decode` call from fresh. -/
inductive CbdOut where
  | complete (body : List Nat) (consumed : Nat)
  | suspended (consumed : Nat)
  deriving DecidableEq, Repr

/-- The decode loop of `ChunkedBodyDecoder::decode`.  The fuel argument is
only a structural-recursion bound; every recursive step consumes at least
two stream bytes, so `stream.length + 1` fuel (what the wrapper passes) is
never exhausted. -/
def cbdRun : Nat → List Nat → Bool → Bool → Bool → List Nat → Nat → Except ErrKind CbdOut
  | 0, _, _, _, _, _, _ => .error .other
  | _ + 1, [], eos, _, _, _, i =>
    if eos then .error .unexpectedEos else .ok (.suspended i)
  | fuel + 1, b0 :: rest0, eos, eosFlag, crlfPending, acc, i =>
    if crlfPending then
      match rest0 with
      | b1 :: rest =>
        if b0 = 13 ∧ b1 = 10 then
          if eosFlag then .ok (.complete acc (i + 2))
          else cbdRun fuel rest eos false false acc (i + 2)
        else .error .invalidInput
      | [] => if eos then .error .unexpectedEos else .ok (.suspended (i + 1))
    else
      match csRun 0 .unknown (b0 :: rest0) eos 0 with
      | .error e => .error e
      | .ok ((size, rem), k) =>
        if rem = .finite 0 then
          let data := ((b0 :: rest0).drop k).take size
          if data.length < size then
            if eos then .error .unexpectedEos
            else .ok (.suspended (i + k + data.length))
          else
            cbdRun fuel ((b0 :: rest0).drop (k + size)) eos (size = 0) true
              (acc ++ data) (i + k + size)
        else .ok (.suspended (i + k))

/-- A `ChunkedBodyDecoder::decode` call from the fresh state. -/
def chunkedBodyDecode (stream : List Nat) (eos : Bool) : Except ErrKind CbdOut :=
  cbdRun (stream.length + 1) stream eos false false [] 0

/-- Sanity: the crate's own test vector `1\r\na\r\n03\r\nfoo\r\n00000\r\n\r\n`
decodes to the body `afoo`, consuming the whole input. -/
theorem chunkedBodyDecode_test_vector :
    chunkedBodyDecode (bytesOf "1\r\na\r\n03\r\nfoo\r\n00000\r\n\r\n") true =
      .ok (.complete (bytesOf "afoo") 24) := by decide

/-- C9: the chunk-size decoder accepts a size line with zero hex digits:
on `\r\n` alone it completes after two bytes and `finish_decoding` returns
0; consequently the chunked-body decoder treats an input beginning with
`\r\n\r\n` as an empty body that consumes exactly those four bytes (the
bare CRLF acts as the last-chunk marker) instead of failing with
`InvalidInput`. -/
theorem chunkSize_empty_line_accepted :
    chunkSizeDecode csFresh (bytesOf "\r\n") true = .ok ((0, .finite 0), 2) ∧
      chunkSizeFinish (0, .finite 0) = .ok (0, csFresh) ∧
      chunkedBodyDecode (bytesOf "\r\n\r\n") true = .ok (.complete [] 4) := by
  decide

/-! ## Status code (`status.rs`)

`StatusCode::new` (lines 20-23) and `StatusCodeDecoder` (lines 48-88).
The decoder buffers exactly 3 bytes (`CopyableBytesDecoder<[u8; 3]>`) and
then requires a single space.  `finish_decoding` converts the 3 buffered
bytes through `str::from_utf8` and `str::parse::<u16>` (both failures
mapped to `InvalidInput`; bytes that are not valid UTF-8 are in particular
not ASCII digits, so the single parsing function below covers both) and
validates the range through `StatusCode::new`. -/

/-- `StatusCode::new`: the code must satisfy `100 <= code < 1000`. -/
def statusCodeNew (code : Nat) : Except ErrKind Nat :=
  if 100 ≤ code ∧ code < 1000 then .ok code else .error .invalidInput

/-- `StatusCodeDecoder::decode` from the fresh state: the completed item is
`some` of the 3 buffered bytes, paired with the consumed count. -/
def statusDecode (buf : List Nat) (eos : Bool) :
    Except ErrKind (Option (List Nat) × Nat) :=
  if buf.length < 3 then
    if eos then .error .unexpectedEos else .ok (none, buf.length)
  else
    match buf.drop 3 with
    | [] => if eos then .error .unexpectedEos else .ok (none, 3)
    | b :: _ => if b = 32 then .ok (some (buf.take 3), 4) else .error .invalidInput

/-- `StatusCodeDecoder::finish_decoding` applied to the 3 buffered bytes. -/
def statusFinish (code3 : List Nat) : Except ErrKind Nat :=
  match parseUnsigned 65535 code3 with
  | some n => statusCodeNew n
  | none => .error .invalidInput

theorem digitsVal_foldl_lt (ds : List Nat) (a : Nat) (hds : ds.all is_digit) :
    ds.foldl (fun x d => x * 10 + (d - 48)) a < (a + 1) * 10 ^ ds.length := by
  induction ds generalizing a with
  | nil => simp
  | cons d ds ih =>
    simp only [List.all_cons, Bool.and_eq_true] at hds
    have hd : d ≤ 57 := by
      have := hds.1
      simp only [is_digit, decide_eq_true_eq] at this
      exact this.2
    have h1 : a * 10 + (d - 48) + 1 ≤ (a + 1) * 10 := by omega
    calc (d :: ds).foldl (fun x d => x * 10 + (d - 48)) a
        = ds.foldl (fun x d => x * 10 + (d - 48)) (a * 10 + (d - 48)) := rfl
      _ < (a * 10 + (d - 48) + 1) * 10 ^ ds.length := ih _ hds.2
      _ ≤ (a + 1) * 10 * 10 ^ ds.length := Nat.mul_le_mul_right _ h1
      _ = (a + 1) * 10 ^ (ds.length + 1) := by ring

theorem digitsVal_lt (ds : List Nat) (hds : ds.all is_digit) :
    digitsVal ds < 10 ^ ds.length := by
  simpa [digitsVal] using digitsVal_foldl_lt ds 0 hds

/-- C6: every status code emitted by `StatusCodeDecoder::finish_decoding`
or `StatusCode::new` satisfies `100 <= code < 1000`; the decoder consumes
exactly its 3 code bytes plus one trailing space; and decoding or finishing
fails with `InvalidInput` when the byte after the 3 code bytes is not a
space, when any of the 3 bytes is not an ASCII digit, or when the parsed
integer lies below 100 (three digits can never reach 1000). -/
theorem statusCode_spec (b0 b1 b2 b : Nat) (rest : List Nat) (eos : Bool)
    (c3 : List Nat) (code n : Nat) :
    (statusFinish c3 = .ok n → 100 ≤ n ∧ n < 1000) ∧
    (statusCodeNew code = .ok n → 100 ≤ n ∧ n < 1000) ∧
    (¬ (100 ≤ code ∧ code < 1000) → statusCodeNew code = .error .invalidInput) ∧
    (b = 32 →
      statusDecode (b0 :: b1 :: b2 :: b :: rest) eos = .ok (some [b0, b1, b2], 4)) ∧
    (b ≠ 32 →
      statusDecode (b0 :: b1 :: b2 :: b :: rest) eos = .error .invalidInput) ∧
    (c3.length = 3 → ¬ c3.all is_digit → statusFinish c3 = .error .invalidInput) ∧
    (c3.length = 3 → c3.all is_digit → digitsVal c3 < 100 →
      statusFinish c3 = .error .invalidInput) := by
  refine ⟨?_, ?_, ?_, ?_, ?_, ?_, ?_⟩
  · intro h
    unfold statusFinish at h
    split at h
    next m _ =>
      unfold statusCodeNew at h
      split at h
      next hr =>
        cases h
        exact hr
      next => cases h
    next => cases h
  · intro h
    unfold statusCodeNew at h
    split at h
    next hr =>
      cases h
      exact hr
    next => cases h
  · intro hr
    unfold statusCodeNew
    rw [if_neg hr]
  · intro hb
    subst hb
    simp [statusDecode]
  · intro hb
    simp [statusDecode, hb]
  · intro hlen hnd
    obtain ⟨d0, d1, d2, rfl⟩ : ∃ d0 d1 d2, c3 = [d0, d1, d2] := by
      match c3, hlen with
      | [d0, d1, d2], _ => exact ⟨d0, d1, d2, rfl⟩
    unfold statusFinish
    by_cases h43 : d0 = 43
    · subst h43
      rw [show parseUnsigned 65535 [43, d1, d2] = digitsCore 65535 [d1, d2] from by
        simp [parseUnsigned]]
      by_cases hok : ([d1, d2] ≠ [] ∧ [d1, d2].all is_digit ∧ digitsVal [d1, d2] ≤ 65535)
      · rw [show digitsCore 65535 [d1, d2] = some (digitsVal [d1, d2]) from by
          simp [digitsCore, hok.2.1, hok.2.2]]
        have hlt : digitsVal [d1, d2] < 100 := by
          have h100 := digitsVal_lt [d1, d2] hok.2.1
          norm_num at h100
          exact h100
        show statusCodeNew (digitsVal [d1, d2]) = _
        unfold statusCodeNew
        rw [if_neg (by omega)]
      · rw [show digitsCore 65535 [d1, d2] = none from by
          unfold digitsCore
          rw [if_neg hok]]
    · rw [show parseUnsigned 65535 [d0, d1, d2] = digitsCore 65535 [d0, d1, d2] from by
        simp [parseUnsigned, h43]]
      rw [show digitsCore 65535 [d0, d1, d2] = none from by
        unfold digitsCore
        rw [if_neg (by
          intro hok
          exact hnd hok.2.1)]]
  · intro hlen hds hlow
    obtain ⟨d0, d1, d2, rfl⟩ : ∃ d0 d1 d2, c3 = [d0, d1, d2] := by
      match c3, hlen with
      | [d0, d1, d2], _ => exact ⟨d0, d1, d2, rfl⟩
    have h43 : d0 ≠ 43 := by
      intro h
      subst h
      simp [is_digit] at hds
    unfold statusFinish
    rw [show parseUnsigned 65535 [d0, d1, d2] = digitsCore 65535 [d0, d1, d2] from by
      simp [parseUnsigned, h43]]
    have hle : digitsVal [d0, d1, d2] ≤ 65535 := by omega
    rw [show digitsCore 65535 [d0, d1, d2] = some (digitsVal [d0, d1, d2]) from by
      simp [digitsCore, hds, hle]]
    show statusCodeNew (digitsVal [d0, d1, d2]) = _
    unfold statusCodeNew
    rw [if_neg (by omega)]

/-- Witness for `statusCode_spec` at the concrete inputs of the crate's own
tests: `200 ` decodes and finishes to 201-range value 200; `10a` and `+99`
fail; `200\r` fails on the missing space. -/
theorem statusCode_spec_witness :
    statusDecode (bytesOf "200 OK") true = .ok (some (bytesOf "200"), 4) ∧
      statusFinish (bytesOf "200") = .ok 200 ∧
      (100 ≤ 200 ∧ 200 < 1000) ∧
      statusFinish (bytesOf "10a") = .error .invalidInput ∧
      statusFinish (bytesOf "+99") = .error .invalidInput ∧
      statusDecode (bytesOf "200\r\n") true = .error .invalidInput := by
  obtain ⟨h1, -, -, h4, -, -, -⟩ :=
    statusCode_spec 50 48 48 32 (bytesOf "OK") true (bytesOf "200") 200 200
  obtain ⟨-, -, -, -, g5, g6, -⟩ :=
    statusCode_spec 50 48 48 13 (bytesOf "\n") true (bytesOf "10a") 200 200
  obtain ⟨-, -, -, -, -, k6, -⟩ :=
    statusCode_spec 50 48 48 13 [] true (bytesOf "+99") 200 200
  exact ⟨h4 rfl, by decide, h1 (by decide), g6 (by decide) (by decide),
    k6 (by decide) (by decide), g5 (by decide)⟩

/-! ## Header block decoder (`header.rs`, lines 218-455)

`HeaderFieldNameDecoder` scans for the first non-`tchar` byte, which must
be `:`; `HeaderFieldValueDecoder` skips leading whitespace, then loops over
bytes counting trailing whitespace separately (checking the whitespace and
vchar classes *before* the just-saw-`\r` flag, exactly as the source loop
does); `HeaderFieldDecoder` first peeks two bytes to recognise the block
terminator `\r\n` and otherwise feeds the stream through the (name, value)
tuple; `HeaderDecoder` repeats fields, rebasing each emitted position pair
by the running field start offset.  All are modelled as single `decode`
calls from the fresh state over the full input: an `Option` result of
`none` is a suspension (the call returned without the element finishing). -/

/-- `HeaderFieldNameDecoder::decode` from fresh: `some` of the name length
when the `:` terminator was reached, paired with the consumed count. -/
def decodeName (buf : List Nat) (eos : Bool) : Except ErrKind (Option Nat × Nat) :=
  match buf.findIdx? (fun b => ! is_tchar b) with
  | some n => if buf.getD n 0 = 58 then .ok (some n, n + 1) else .error .invalidInput
  | none => if eos then .error .unexpectedEos else .ok (none, buf.length)

/-- The byte loop of `HeaderFieldValueDecoder::decode`: state is the
saw-`\r` flag, the committed size, the pending trailing-whitespace count
and the consumed count. -/
def valLoop (eos : Bool) : List Nat → Bool → Nat → Nat → Nat →
    Except ErrKind (Option Nat × Nat)
  | [], _, _, _, i => if eos then .error .unexpectedEos else .ok (none, i)
  | b :: bs, remFlag, size, tw, i =>
    if is_whitespace b then valLoop eos bs remFlag size (tw + 1) (i + 1)
    else if is_vchar b then valLoop eos bs remFlag (size + tw + 1) 0 (i + 1)
    else if remFlag then
      if b = 10 then .ok (some size, i + 1) else .error .invalidInput
    else if b = 13 then valLoop eos bs true size tw (i + 1)
    else .error .invalidInput

/-- `HeaderFieldValueDecoder::decode` from fresh: `some (start, size)` of
the value range when the terminating `\r\n` was reached. -/
def decodeValue (buf : List Nat) (eos : Bool) :
    Except ErrKind (Option (Nat × Nat) × Nat) :=
  let skip := (buf.takeWhile is_whitespace).length
  match valLoop eos (buf.drop skip) false 0 0 0 with
  | .error e => .error e
  | .ok (some size, j) => .ok (some (skip, size), skip + j)
  | .ok (none, j) => .ok (none, skip + j)

/-- Outcome of one `HeaderFieldDecoder::decode` call from fresh. -/
inductive FieldStep where
  | crlf
  | complete (name : Nat × Nat) (value : Nat × Nat)
  | suspended
  deriving DecidableEq, Repr

/-- `HeaderFieldDecoder::decode` from fresh: peek two bytes; `\r\n` means
the block terminator was reached, anything else is run through the name
and value decoders (`finish_decoding` then rebases the value range past
the name and the `:`). -/
def decodeField (buf : List Nat) (eos : Bool) : Except ErrKind (FieldStep × Nat) :=
  match buf with
  | [] => if eos then .error .unexpectedEos else .ok (.suspended, 0)
  | [_] => if eos then .error .unexpectedEos else .ok (.suspended, 1)
  | b0 :: b1 :: _ =>
    if b0 = 13 ∧ b1 = 10 then .ok (.crlf, 2)
    else
      match decodeName buf eos with
      | .error e => .error e
      | .ok (none, i) => .ok (.suspended, i)
      | .ok (some nlen, i) =>
        match decodeValue (buf.drop i) eos with
        | .error e => .error e
        | .ok (none, j) => .ok (.suspended, i + j)
        | .ok (some (start, size), j) =>
          .ok (.complete (0, nlen) (start + nlen + 1, start + nlen + 1 + size), i + j)

/-- A decoded header-field position pair: (name range, value range). -/
abbrev FieldPos := (Nat × Nat) × (Nat × Nat)

/-- The field loop of `HeaderDecoder::decode` from fresh; `fs` is the
running `field_start` offset by which completed positions are rebased.
The fuel argument is only a structural-recursion bound; every recursive
step consumes at least one byte, so the `buf.length + 1` fuel passed by
the wrapper is never exhausted. -/
def headerRun : Nat → List Nat → Bool → Nat → List FieldPos →
    Except ErrKind (Option (List FieldPos) × Nat)
  | 0, _, _, _, _ => .error .other
  | fuel + 1, buf, eos, fs, acc =>
    match decodeField buf eos with
    | .error e => .error e
    | .ok (.crlf, k) => .ok (some acc, fs + k)
    | .ok (.suspended, k) => .ok (none, fs + k)
    | .ok (.complete nm vl, k) =>
      headerRun fuel (buf.drop k) eos (fs + k)
        (acc ++ [((fs + nm.1, fs + nm.2), (fs + vl.1, fs + vl.2))])

/-- A `HeaderDecoder::decode` call from the fresh state (field start 0):
`some` of the emitted position list when the terminating blank line was
reached, paired with the consumed count. -/
def headerDecode (buf : List Nat) (eos : Bool) :
    Except ErrKind (Option (List FieldPos) × Nat) :=
  headerRun (buf.length + 1) buf eos 0 []

/-- Sanity: the crate's own test vector `foo: bar\r\n111:222   \r\n\r\n`
yields positions (0..3, 5..8) and (10..13, 14..17), consuming all 24
bytes. -/
theorem headerDecode_test_vector :
    headerDecode (bytesOf "foo: bar\r\n111:222   \r\n\r\n") true =
      .ok (some [((0, 3), (5, 8)), ((10, 13), (14, 17))], 24) := by decide

/-- C7 failing input: the header block `x:a\rb\n\r\n` is accepted by the
header decoder (the value loop checks the whitespace and vchar classes
before the saw-`\r` flag, so a `\r` inside a value does not force `\n` to
follow), and the single emitted field has value range 2..4, whose bytes
are `a\r`: the range ends with the byte `\r` (0x0D), which is not a vchar.
This contradicts the claimed invariant that accepted value ranges begin
and end with vchar bytes. -/
theorem headerDecode_value_range_ends_in_cr :
    headerDecode (bytesOf "x:a\rb\n\r\n") true = .ok (some [((0, 1), (2, 4))], 8) ∧
      ((bytesOf "x:a\rb\n\r\n").drop 2).take 2 = [97, 13] ∧
      is_vchar 13 = false ∧ is_tchar 120 = true ∧ is_vchar 97 = true := by
  decide

/-! ## End-of-stream behaviour

For each decoder, a `decode` call with `eos = true` behaves exactly like
the `eos = false` call except that every suspension (a return without the
current element finishing) becomes an `UnexpectedEos` failure.  Each
lemma below states this as one equation. -/

theorem decodeName_eos_eq (buf : List Nat) :
    decodeName buf true =
      match decodeName buf false with
      | .ok (none, _) => .error .unexpectedEos
      | x => x := by
  unfold decodeName
  cases hIdx : buf.findIdx? (fun b => ! is_tchar b) with
  | some n => split <;> split <;> simp_all
  | none => simp

theorem valLoop_eos_eq (bs : List Nat) : ∀ (rf : Bool) (sz tw i : Nat),
    valLoop true bs rf sz tw i =
      match valLoop false bs rf sz tw i with
      | .ok (none, _) => .error .unexpectedEos
      | x => x := by
  induction bs with
  | nil => intro rf sz tw i; simp [valLoop]
  | cons b bs ih =>
    intro rf sz tw i
    by_cases hws : is_whitespace b
    · simp only [valLoop, hws, if_true]
      exact ih _ _ _ _
    · by_cases hvc : is_vchar b
      · simp only [valLoop, hws, hvc, if_false, if_true]
        exact ih _ _ _ _
      · by_cases hrf : rf
        · subst hrf
          by_cases h10 : b = 10
          · subst h10
            simp [valLoop, hws, hvc]
          · simp [valLoop, hws, hvc, h10]
        · by_cases h13 : b = 13
          · simp only [valLoop, hws, hvc, hrf, h13, if_false, if_true]
            exact ih _ _ _ _
          · simp [valLoop, hws, hvc, hrf, h13]

theorem decodeValue_eos_eq (buf : List Nat) :
    decodeValue buf true =
      match decodeValue buf false with
      | .ok (none, _) => .error .unexpectedEos
      | x => x := by
  unfold decodeValue
  simp only [valLoop_eos_eq]
  cases hv : valLoop false (buf.drop (buf.takeWhile is_whitespace).length) false 0 0 0 with
  | error e => simp
  | ok p =>
    obtain ⟨os, j⟩ := p
    cases os <;> simp

theorem decodeField_eos_eq (buf : List Nat) :
    decodeField buf true =
      match decodeField buf false with
      | .ok (.suspended, _) => .error .unexpectedEos
      | x => x := by
  match buf with
  | [] => rfl
  | [b] => rfl
  | b0 :: b1 :: rest =>
    simp only [decodeField]
    by_cases hcr : b0 = 13 ∧ b1 = 10
    · simp [hcr]
    · rw [if_neg hcr, if_neg hcr]
      rw [decodeName_eos_eq]
      cases hn : decodeName (b0 :: b1 :: rest) false with
      | error e => simp
      | ok p =>
        obtain ⟨onm, i⟩ := p
        cases onm with
        | none => simp
        | some nlen =>
          simp only
          rw [decodeValue_eos_eq]
          cases hv : decodeValue ((b0 :: b1 :: rest).drop i) false with
          | error e => simp
          | ok q =>
            obtain ⟨ov, j⟩ := q
            cases ov with
            | none => simp
            | some sv => obtain ⟨st, sz⟩ := sv; simp

theorem headerRun_eos_eq (fuel : Nat) : ∀ (buf : List Nat) (fs : Nat)
    (acc : List FieldPos),
    headerRun fuel buf true fs acc =
      match headerRun fuel buf false fs acc with
      | .ok (none, _) => .error .unexpectedEos
      | x => x := by
  induction fuel with
  | zero => intro buf fs acc; rfl
  | succ fuel ih =>
    intro buf fs acc
    unfold headerRun
    rw [decodeField_eos_eq]
    cases hf : decodeField buf false with
    | error e => simp
    | ok p =>
      obtain ⟨st, k⟩ := p
      cases st with
      | crlf => simp
      | suspended => simp
      | complete nm vl => simp only; exact ih _ _ _

theorem csRun_eos_eq (bs : List Nat) : ∀ (size : Nat) (rem : ByteCount),
    rem ≠ .finite 0 → ∀ i,
    csRun size rem bs true i =
      match csRun size rem bs false i with
      | .ok (st, j) => if st.2 = .finite 0 then .ok (st, j) else .error .unexpectedEos
      | x => x := by
  induction bs with
  | nil =>
    intro size rem hrem i
    simp [csRun, hrem]
  | cons b bs ih =>
    intro size rem hrem i
    by_cases h1 : rem = .finite 1
    · subst h1
      by_cases h10 : b = 10
      · subst h10; simp [csRun]
      · simp [csRun, h10]
    · by_cases h13 : b = 13
      · subst h13
        simp only [csRun, h1, if_false, if_pos rfl]
        exact ih size (.finite 1) (by simp) (i + 1)
      · cases hx : hexDigitVal b with
        | some n =>
          simp only [csRun, h1, h13, if_false, hx]
          exact ih _ rem hrem (i + 1)
        | none => simp [csRun, h1, h13, hx]

theorem statusDecode_eos_eq (buf : List Nat) :
    statusDecode buf true =
      match statusDecode buf false with
      | .ok (none, _) => .error .unexpectedEos
      | x => x := by
  unfold statusDecode
  by_cases h3 : buf.length < 3
  · simp [h3]
  · rw [if_neg h3, if_neg h3]
    cases hd : buf.drop 3 with
    | nil => simp
    | cons b rest => by_cases hb : b = 32 <;> simp [hb]

theorem cbdRun_eos_eq (fuel : Nat) : ∀ (stream : List Nat) (eosFlag crlfPending : Bool)
    (acc : List Nat) (i : Nat),
    cbdRun fuel stream true eosFlag crlfPending acc i =
      match cbdRun fuel stream false eosFlag crlfPending acc i with
      | .ok (.suspended _) => .error .unexpectedEos
      | x => x := by
  induction fuel with
  | zero => intro stream eosFlag crlfPending acc i; rfl
  | succ fuel ih =>
    intro stream eosFlag crlfPending acc i
    match stream with
    | [] => simp [cbdRun]
    | b0 :: rest0 =>
      by_cases hp : crlfPending
      · subst hp
        cases rest0 with
        | nil => simp [cbdRun]
        | cons b1 rest =>
          by_cases hcr : b0 = 13 ∧ b1 = 10
          · by_cases hef : eosFlag
            · subst hef; simp [cbdRun, hcr]
            · have hef' : eosFlag = false := by simpa using hef
              subst hef'
              simp only [cbdRun, hcr, if_pos rfl, if_true, Bool.false_eq_true, if_false]
              exact ih rest false false acc (i + 2)
          · simp [cbdRun, hcr]
      · have hp' : crlfPending = false := by simpa using hp
        subst hp'
        simp only [cbdRun, Bool.false_eq_true, if_false]
        rw [csRun_eos_eq (b0 :: rest0) 0 .unknown (by simp) 0]
        cases hcs : csRun 0 .unknown (b0 :: rest0) false 0 with
        | error e => simp
        | ok p =>
          obtain ⟨⟨size, rem⟩, k⟩ := p
          by_cases hrem : rem = .finite 0
          · subst hrem
            by_cases hlt : rest0.length + 1 - k < size
            · simp [hlt]
            · simp [hlt]
              exact ih _ _ _ _ _
          · simp [hrem]

/-! ### Start-line field decoders

The remaining field decoders: method, request-target, HTTP-version and
reason-phrase, each again modelled as a single `decode` call from the
fresh state over the full input. -/

/-- Modelled from the spec: the `MethodDecoder` that `RequestLineDecoder`
composes (the first stage of `RequestDecoder`) is not among the provided
sources — the `method.rs` present holds an older token-based decoder with
a different item type.  Per spec section 4.3 the method decoder scans for the
first non-tchar byte, requires that terminator to be a space
(`InvalidInput` otherwise, `UnexpectedEos` if the input ends first), and
emits the token length. -/
def methodDecode (buf : List Nat) (eos : Bool) : Except ErrKind (Option Nat × Nat) :=
  match buf.findIdx? (fun b => ! is_tchar b) with
  | some n => if buf.getD n 0 = 32 then .ok (some n, n + 1) else .error .invalidInput
  | none => if eos then .error .unexpectedEos else .ok (none, buf.length)

/-- `RequestTargetDecoder::decode` from fresh (`request_target.rs` lines
53-66): scan for the first non-vchar byte, require it to be the space
terminator (`InvalidInput` otherwise) and emit the target length; with no
such byte the call consumes everything and suspends, or fails
`UnexpectedEos` when `eos` is set. -/
def requestTargetDecode (buf : List Nat) (eos : Bool) :
    Except ErrKind (Option Nat × Nat) :=
  match buf.findIdx? (fun b => ! is_vchar b) with
  | some n => if buf.getD n 0 = 32 then .ok (some n, n + 1) else .error .invalidInput
  | none => if eos then .error .unexpectedEos else .ok (none, buf.length)

/-- `HttpVersion`. -/
inductive HV where
  | v1_0
  | v1_1
  deriving DecidableEq, Repr

/-- `HttpVersionDecoder::decode` from fresh (`version.rs` lines 39-51): an
eight-byte `CopyableBytesDecoder` feeds the version check — fewer than
eight bytes available means suspension, or `UnexpectedEos` when `eos` is
set; `HTTP/1.0` and `HTTP/1.1` are the only accepted items and anything
else is `InvalidInput`. -/
def httpVersionDecode (buf : List Nat) (eos : Bool) :
    Except ErrKind (Option HV × Nat) :=
  if 8 ≤ buf.length then
    if buf.take 8 = bytesOf "HTTP/1.0" then .ok (some .v1_0, 8)
    else if buf.take 8 = bytesOf "HTTP/1.1" then .ok (some .v1_1, 8)
    else .error .invalidInput
  else if eos then .error .unexpectedEos
  else .ok (none, buf.length)

/-- `is_phrase_char` (`status.rs` lines 186-188). -/
def is_phrase_char (b : Nat) : Bool := is_vchar b || is_whitespace b

/-- `ReasonPhraseDecoder::decode` from fresh (`status.rs` lines 138-163):
scan for the first non-phrase-char byte, require it to be `\r`
(`InvalidInput` otherwise); if the following byte is available it must be
`\n` (`InvalidInput` otherwise), completing with the phrase length;
whenever the element is not complete at the end of the input the call
suspends, or fails `UnexpectedEos` when `eos` is set. -/
def reasonPhraseDecode (buf : List Nat) (eos : Bool) :
    Except ErrKind (Option Nat × Nat) :=
  match buf.findIdx? (fun b => ! is_phrase_char b) with
  | some n =>
    if buf.getD n 0 = 13 then
      if n + 1 < buf.length then
        if buf.getD (n + 1) 0 = 10 then .ok (some n, n + 2)
        else .error .invalidInput
      else if eos then .error .unexpectedEos
      else .ok (none, n + 1)
    else .error .invalidInput
  | none => if eos then .error .unexpectedEos else .ok (none, buf.length)

theorem methodDecode_eos_eq (buf : List Nat) :
    methodDecode buf true =
      match methodDecode buf false with
      | .ok (none, _) => .error .unexpectedEos
      | x => x := by
  unfold methodDecode
  cases hIdx : buf.findIdx? (fun b => ! is_tchar b) with
  | some n => split <;> split <;> simp_all
  | none => simp

theorem requestTargetDecode_eos_eq (buf : List Nat) :
    requestTargetDecode buf true =
      match requestTargetDecode buf false with
      | .ok (none, _) => .error .unexpectedEos
      | x => x := by
  unfold requestTargetDecode
  cases hIdx : buf.findIdx? (fun b => ! is_vchar b) with
  | some n => split <;> split <;> simp_all
  | none => simp

theorem httpVersionDecode_eos_eq (buf : List Nat) :
    httpVersionDecode buf true =
      match httpVersionDecode buf false with
      | .ok (none, _) => .error .unexpectedEos
      | x => x := by
  unfold httpVersionDecode
  split_ifs <;> simp_all

theorem reasonPhraseDecode_eos_eq (buf : List Nat) :
    reasonPhraseDecode buf true =
      match reasonPhraseDecode buf false with
      | .ok (none, _) => .error .unexpectedEos
      | x => x := by
  unfold reasonPhraseDecode
  cases hIdx : buf.findIdx? (fun b => ! is_phrase_char b) with
  | some n =>
    simp only
    split_ifs <;> simp_all
  | none => simp

/-- C8: for every decoder in the library — the field decoders (method,
request-target, HTTP-version, status-code, reason-phrase, header-field
name and header-field value), the header block decoder, the chunk-size
decoder and the chunked-body decoder — a `decode` call with `eos = true`
never suspends: when it returns successfully the current syntactic
element is complete, and whenever the corresponding `eos = false` call
would have suspended (returned without completing), the `eos = true` call
fails with `UnexpectedEos`. -/
theorem eos_no_suspension :
    (∀ buf r, decodeName buf true = .ok r → r.1.isSome) ∧
    (∀ buf k, decodeName buf false = .ok (none, k) →
      decodeName buf true = .error .unexpectedEos) ∧
    (∀ buf r, decodeValue buf true = .ok r → r.1.isSome) ∧
    (∀ buf k, decodeValue buf false = .ok (none, k) →
      decodeValue buf true = .error .unexpectedEos) ∧
    (∀ buf r, headerDecode buf true = .ok r → r.1.isSome) ∧
    (∀ buf k, headerDecode buf false = .ok (none, k) →
      headerDecode buf true = .error .unexpectedEos) ∧
    (∀ st buf r, chunkSizeDecode st buf true = .ok r → r.1.2 = .finite 0) ∧
    (∀ st buf r, chunkSizeDecode st buf false = .ok r → r.1.2 ≠ .finite 0 →
      chunkSizeDecode st buf true = .error .unexpectedEos) ∧
    (∀ stream body c, chunkedBodyDecode stream true = .ok (.suspended c) →
      chunkedBodyDecode stream true = .ok (.complete body c)) ∧
    (∀ stream c, chunkedBodyDecode stream false = .ok (.suspended c) →
      chunkedBodyDecode stream true = .error .unexpectedEos) ∧
    (∀ buf r, statusDecode buf true = .ok r → r.1.isSome) ∧
    (∀ buf k, statusDecode buf false = .ok (none, k) →
      statusDecode buf true = .error .unexpectedEos) ∧
    (∀ buf r, methodDecode buf true = .ok r → r.1.isSome) ∧
    (∀ buf k, methodDecode buf false = .ok (none, k) →
      methodDecode buf true = .error .unexpectedEos) ∧
    (∀ buf r, requestTargetDecode buf true = .ok r → r.1.isSome) ∧
    (∀ buf k, requestTargetDecode buf false = .ok (none, k) →
      requestTargetDecode buf true = .error .unexpectedEos) ∧
    (∀ buf r, httpVersionDecode buf true = .ok r → r.1.isSome) ∧
    (∀ buf k, httpVersionDecode buf false = .ok (none, k) →
      httpVersionDecode buf true = .error .unexpectedEos) ∧
    (∀ buf r, reasonPhraseDecode buf true = .ok r → r.1.isSome) ∧
    (∀ buf k, reasonPhraseDecode buf false = .ok (none, k) →
      reasonPhraseDecode buf true = .error .unexpectedEos) := by
  refine ⟨?_, ?_, ?_, ?_, ?_, ?_, ?_, ?_, ?_, ?_, ?_, ?_, ?_, ?_, ?_, ?_, ?_,
    ?_, ?_, ?_⟩
  · intro buf r h
    rw [decodeName_eos_eq] at h
    cases hf : decodeName buf false with
    | error e => rw [hf] at h; cases h
    | ok p =>
      obtain ⟨os, k⟩ := p
      cases os with
      | none => rw [hf] at h; cases h
      | some n => rw [hf] at h; cases h; rfl
  · intro buf k h
    rw [decodeName_eos_eq, h]
  · intro buf r h
    rw [decodeValue_eos_eq] at h
    cases hf : decodeValue buf false with
    | error e => rw [hf] at h; cases h
    | ok p =>
      obtain ⟨os, k⟩ := p
      cases os with
      | none => rw [hf] at h; cases h
      | some n => rw [hf] at h; cases h; rfl
  · intro buf k h
    rw [decodeValue_eos_eq, h]
  · intro buf r h
    unfold headerDecode at h
    rw [headerRun_eos_eq] at h
    cases hf : headerRun (buf.length + 1) buf false 0 [] with
    | error e => rw [hf] at h; cases h
    | ok p =>
      obtain ⟨os, k⟩ := p
      cases os with
      | none => rw [hf] at h; cases h
      | some n => rw [hf] at h; cases h; rfl
  · intro buf k h
    unfold headerDecode at h ⊢
    rw [headerRun_eos_eq, h]
  · intro st buf r h
    unfold chunkSizeDecode at h
    by_cases hidle : st.2 = .finite 0
    · rw [if_pos hidle] at h; cases h; exact hidle
    · rw [if_neg hidle, csRun_eos_eq buf st.1 st.2 hidle 0] at h
      cases hf : csRun st.1 st.2 buf false 0 with
      | error e => rw [hf] at h; cases h
      | ok p =>
        obtain ⟨st', j⟩ := p
        rw [hf] at h
        replace h : (if st'.2 = .finite 0 then Except.ok (st', j)
            else Except.error ErrKind.unexpectedEos) = Except.ok r := h
        by_cases hp : st'.2 = .finite 0
        · rw [if_pos hp] at h
          cases h
          exact hp
        · rw [if_neg hp] at h
          cases h
  · intro st buf r h hne
    unfold chunkSizeDecode at h ⊢
    by_cases hidle : st.2 = .finite 0
    · rw [if_pos hidle] at h
      cases h
      exact absurd hidle hne
    · rw [if_neg hidle] at h
      rw [if_neg hidle, csRun_eos_eq buf st.1 st.2 hidle 0, h]
      obtain ⟨st', j⟩ := r
      simp only at hne
      simp [hne]
  · intro stream body c h
    unfold chunkedBodyDecode at h
    rw [cbdRun_eos_eq] at h
    cases hf : cbdRun (stream.length + 1) stream false false false [] 0 with
    | error e => rw [hf] at h; cases h
    | ok out =>
      cases out with
      | suspended c' => rw [hf] at h; cases h
      | complete b' c' => rw [hf] at h; cases h
  · intro stream c h
    unfold chunkedBodyDecode at h ⊢
    rw [cbdRun_eos_eq, h]
  · intro buf r h
    rw [statusDecode_eos_eq] at h
    cases hf : statusDecode buf false with
    | error e => rw [hf] at h; cases h
    | ok p =>
      obtain ⟨os, k⟩ := p
      cases os with
      | none => rw [hf] at h; cases h
      | some n => rw [hf] at h; cases h; rfl
  · intro buf k h
    rw [statusDecode_eos_eq, h]
  · intro buf r h
    rw [methodDecode_eos_eq] at h
    cases hf : methodDecode buf false with
    | error e => rw [hf] at h; cases h
    | ok p =>
      obtain ⟨os, k⟩ := p
      cases os with
      | none => rw [hf] at h; cases h
      | some n => rw [hf] at h; cases h; rfl
  · intro buf k h
    rw [methodDecode_eos_eq, h]
  · intro buf r h
    rw [requestTargetDecode_eos_eq] at h
    cases hf : requestTargetDecode buf false with
    | error e => rw [hf] at h; cases h
    | ok p =>
      obtain ⟨os, k⟩ := p
      cases os with
      | none => rw [hf] at h; cases h
      | some n => rw [hf] at h; cases h; rfl
  · intro buf k h
    rw [requestTargetDecode_eos_eq, h]
  · intro buf r h
    rw [httpVersionDecode_eos_eq] at h
    cases hf : httpVersionDecode buf false with
    | error e => rw [hf] at h; cases h
    | ok p =>
      obtain ⟨os, k⟩ := p
      cases os with
      | none => rw [hf] at h; cases h
      | some n => rw [hf] at h; cases h; rfl
  · intro buf k h
    rw [httpVersionDecode_eos_eq, h]
  · intro buf r h
    rw [reasonPhraseDecode_eos_eq] at h
    cases hf : reasonPhraseDecode buf false with
    | error e => rw [hf] at h; cases h
    | ok p =>
      obtain ⟨os, k⟩ := p
      cases os with
      | none => rw [hf] at h; cases h
      | some n => rw [hf] at h; cases h; rfl
  · intro buf k h
    rw [reasonPhraseDecode_eos_eq, h]

/-- Witness for `eos_no_suspension`: concrete truncated elements (a bare
token with no `:`, a chunked body cut off before the chunk terminator, a
header block cut mid-value, a bare method token, a target with no space
yet, four bytes of the eight-byte version, a reason phrase with no CRLF)
that suspend without `eos` and fail with `UnexpectedEos` with it. -/
theorem eos_no_suspension_witness :
    decodeName [97] true = .error .unexpectedEos ∧
      chunkedBodyDecode (bytesOf "1\r\na") true = .error .unexpectedEos ∧
      headerDecode (bytesOf "foo: b") true = .error .unexpectedEos ∧
      methodDecode (bytesOf "GET") true = .error .unexpectedEos ∧
      requestTargetDecode (bytesOf "/foo") true = .error .unexpectedEos ∧
      httpVersionDecode (bytesOf "HTTP") true = .error .unexpectedEos ∧
      reasonPhraseDecode (bytesOf "OK") true = .error .unexpectedEos := by
  obtain ⟨-, hn, -, -, -, hh, -, -, -, hc, -, -, -, hm, -, ht, -, hv, -, hr⟩ :=
    eos_no_suspension
  exact ⟨hn [97] 1 (by decide), hc (bytesOf "1\r\na") 4 (by decide),
    hh (bytesOf "foo: b") 6 (by decide), hm (bytesOf "GET") 3 (by decide),
    ht (bytesOf "/foo") 4 (by decide), hv (bytesOf "HTTP") 4 (by decide),
    hr (bytesOf "OK") 2 (by decide)⟩

/-! ## Request construction and encoding (`request.rs`)

`Request::new` (lines 26-47) precomputes a raw buffer holding the
request line; `HeaderMut::add_field` (`header.rs` lines 72-92) appends
`name ++ ": " ++ value ++ "\r\n"` to it and records the position pair.
`RequestEncoder` (lines 232-286) holds that buffer in a `BytesEncoder`
(`before_body`) followed by the body encoder.  Two points where this
duplicated implementation differs from `MessageEncoder` in `message.rs`
are modelled exactly as written: `start_encoding` appends no terminating
`\r\n` after the headers, and `encode` discards the byte count returned by
`before_body.encode(buf, eos)`, leaving `offset` at 0 so the body encoder
overwrites the front of the same output buffer.  The body encoder is
`BodyEncoder<BytesEncoder<_>>` as in the crate's doc example: it starts in
the fixed-length state and `update_header` appends `Content-Length`. -/

/-- `HttpVersion::as_str` as bytes. -/
def hvBytes : HV → List Nat
  | .v1_0 => bytesOf "HTTP/1.0"
  | .v1_1 => bytesOf "HTTP/1.1"

/-- An outgoing `Request`: raw buffer, header positions, body bytes. -/
structure Req where
  buf : List Nat
  fields : List FieldPos
  body : List Nat
  deriving DecidableEq, Repr

/-- `Request::new(method, target, version, body)`. -/
def requestNew (method target : List Nat) (version : HV) (body : List Nat) : Req :=
  { buf := method ++ [32] ++ target ++ [32] ++ hvBytes version ++ [13, 10]
    fields := []
    body := body }

/-- `HeaderMut::add_field`: append `name ++ ": " ++ value ++ "\r\n"` and
record the (name range, value range) position pair. -/
def addField (buf : List Nat) (fields : List FieldPos) (name value : List Nat) :
    List Nat × List FieldPos :=
  let nstart := buf.length
  let buf1 := buf ++ name
  let nend := buf1.length
  let buf2 := buf1 ++ [58, 32]
  let vstart := buf2.length
  let buf3 := buf2 ++ value
  let vend := buf3.length
  (buf3 ++ [13, 10], fields ++ [((nstart, nend), (vstart, vend))])

/-- Decimal digits of `n` (`u64::to_string`); the fuel bound 64 covers
every value below `10^64`, far beyond `u64`. -/
def decDigits : Nat → Nat → List Nat
  | 0, _ => []
  | fuel + 1, n => if n < 10 then [48 + n] else decDigits fuel (n / 10) ++ [48 + n % 10]

/-- `n.to_string()` as bytes. -/
def natToDecBytes (n : Nat) : List Nat := decDigits 64 n

/-- `RequestEncoder::start_encoding` for a `BodyEncoder<BytesEncoder<_>>`
body: load the body, let `update_header` append `Content-Length` (its
`Result` is discarded by the source), and prime `before_body` with the raw
buffer — with no final `\r\n` appended (unlike `MessageEncoder`).  The
state is `(before_body remaining bytes, body remaining bytes)`. -/
def requestStartEncoding (req : Req) : List Nat × List Nat :=
  let withCl := addField req.buf req.fields (bytesOf "Content-Length")
    (natToDecBytes req.body.length)
  (withCl.1, req.body)

/-- One `RequestEncoder::encode` call into a scratch buffer of length `n`:
`before_body.encode` writes its bytes at the front of the buffer but its
return value is discarded, so when `before_body` finishes, the body bytes
are written starting at offset 0 over the same region and only
`buf[..body_written]` is handed to the caller. -/
def requestEncodeStep (st : List Nat × List Nat) (n : Nat) :
    (List Nat × List Nat) × List Nat :=
  if st.1 ≠ [] then
    let before' := st.1.drop n
    if before' ≠ [] then ((before', st.2), [])
    else
      let k := min st.2.length n
      ((before', st.2.drop k), st.2.take k)
  else
    let k := min st.2.length n
    ((st.1, st.2.drop k), st.2.take k)

/-- `IoEncodeExt::encode_all`: drive `encode` with a 1024-byte scratch
buffer until the encoder is idle, concatenating the produced chunks.  The
fuel is a structural bound; every step shrinks the remaining bytes. -/
def requestEncodeLoop : Nat → List Nat × List Nat → List Nat
  | 0, _ => []
  | fuel + 1, st =>
    if st.1 = [] ∧ st.2 = [] then []
    else
      let step := requestEncodeStep st 1024
      step.2 ++ requestEncodeLoop fuel step.1

/-- `encode_all` with sufficient fuel. -/
def requestEncodeAll (st : List Nat × List Nat) : List Nat :=
  requestEncodeLoop (st.1.length + st.2.length + 1) st

/-- C1 failing input: the crate's own doc example,
`Request::new(GET, /foo, HTTP/1.1, b"barbaz")` encoded through
`RequestEncoder::new(BodyEncoder::new(BytesEncoder::new()))`.  The
documented output is `GET /foo HTTP/1.1\r\nContent-Length: 6\r\n\r\nbarbaz`,
but the encoder of `request.rs` emits only `barbaz`: `encode` throws away
the count of header bytes written, so the body overwrites them in the
output buffer, and `start_encoding` never appends the blank line.  The
first stage of decoding that output then fails with `UnexpectedEos`
instead of reproducing the request, so encode-then-decode cannot
round-trip. -/
theorem requestEncoder_drops_head :
    requestEncodeAll
        (requestStartEncoding (requestNew (bytesOf "GET") (bytesOf "/foo") .v1_1
          (bytesOf "barbaz"))) = bytesOf "barbaz" ∧
      bytesOf "barbaz" ≠
        bytesOf "GET /foo HTTP/1.1\r\nContent-Length: 6\r\n\r\nbarbaz" ∧
      methodDecode (bytesOf "barbaz") true = .error .unexpectedEos := by
  decide

/-! ## Chunked body encoder (`chunked_body.rs`, `ChunkedBodyEncoder`, lines 24-99)

The inner encoder is instantiated, as in the crate's doc example and
tests, with a `BytesEncoder`-style source: a list of remaining payload
bytes of which each `encode` call writes as many as fit.  The output
buffer is modelled positionally as a list of its current contents, because
the source writes the payload first (at the table offset) and the hex size
head afterwards (at the front, via `write!`, which also advances the
slice), and the two regions can overlap when the hex digits of the payload
size exceed the head field.  `write!` emits the size as lowercase hex
left-padded with `0` to the field width — and *wider* than the field when
the size needs more digits.  State is `(inner, delim, last)` remaining
byte lists; the result carries the updated state, the updated buffer and
the returned byte count. -/

/-- Overwrite `buf` starting at `pos` with `data` (clipped to the buffer
end; the length never changes). -/
def writeAt (buf : List Nat) (pos : Nat) (data : List Nat) : List Nat :=
  buf.take pos ++ data.take (buf.length - pos) ++ buf.drop (pos + data.length)

/-- The lowercase hex digit byte for `d < 16`. -/
def hexDigitByte (d : Nat) : Nat := if d < 10 then 48 + d else 87 + d

/-- Number of hex digits of a positive number; structural fuel of 128
covers every value below `16 ^ 128`, far beyond `u64`/`usize`. -/
def hexLenAux : Nat → Nat → Nat
  | 0, _ => 0
  | fuel + 1, n => if n = 0 then 0 else hexLenAux fuel (n / 16) + 1

/-- Number of hex digits in the representation of `n` (at least 1). -/
def hexDigitsLen (n : Nat) : Nat := if n = 0 then 1 else hexLenAux 128 n

/-- The bytes `write!(buf, "{:0width$x}", n)` produces: lowercase hex of
`n`, left-padded with `0` to `width`, and longer than `width` when `n`
needs more digits. -/
def hexStrPadded (width n : Nat) : List Nat :=
  (List.range (max width (hexDigitsLen n))).reverse.map
    (fun i => hexDigitByte (n / 16 ^ i % 16))

/-- The size table of `ChunkedBodyEncoder::encode` (lines 49-65): the
total head width (hex digits plus `\r\n`) chosen from the buffer length. -/
def chunkHeadWidth (n : Nat) : Nat :=
  if n ≤ 3 + 0xF then 3
  else if n ≤ 4 + 0xFF then 4
  else if n ≤ 5 + 0xFFF then 5
  else if n ≤ 6 + 0xFFFF then 6
  else if n ≤ 7 + 0xFFFFF then 7
  else if n ≤ 8 + 0xFFFFFF then 8
  else if n ≤ 9 + 0xFFFFFFF then 9
  else 10

/-- `ChunkedBodyEncoder::encode`.  The fuel is a structural bound; every
recursive call strictly shrinks the buffer, so the `buf.length + 1` fuel
the wrapper passes is never exhausted.  The `.error .other` on a head that
does not fit the whole buffer stands for the `write!` I/O failure path. -/
def cbeEncode : Nat → List Nat → List Nat → List Nat → List Nat →
    Except ErrKind ((List Nat × List Nat × List Nat) × List Nat × Nat)
  | 0, _, _, _, _ => .error .other
  | fuel + 1, inner, delim, last, buf =>
    if last ≠ [] then
      let k := min last.length buf.length
      .ok ((inner, delim, last.drop k), writeAt buf 0 (last.take k), k)
    else if delim ≠ [] then
      let k := min delim.length buf.length
      let buf1 := writeAt buf 0 (delim.take k)
      if delim.drop k = [] ∧ inner ≠ [] then
        match cbeEncode fuel inner [] last (buf1.drop k) with
        | .error e => .error e
        | .ok (st, bufR, m) => .ok (st, buf1.take k ++ bufR, k + m)
      else .ok ((inner, delim.drop k, last), buf1, k)
    else if inner = [] then .ok ((inner, delim, last), buf, 0)
    else if buf.length < 4 then
      .ok ((inner, delim, last), List.replicate buf.length 48, buf.length)
    else
      let w := chunkHeadWidth buf.length
      let s := min inner.length (buf.length - w)
      if s = 0 then .ok ((inner, delim, last), writeAt buf w (inner.take s), 0)
      else
        let buf1 := writeAt buf w (inner.take s)
        let headStr := hexStrPadded (w - 2) s ++ [13, 10]
        if buf.length < headStr.length then .error .other
        else
          let buf2 := writeAt buf1 0 headStr
          if inner.drop s = [] ∧ s ≠ 0 then
            match cbeEncode fuel (inner.drop s) delim [13, 10, 48, 13, 10, 13, 10]
                (buf2.drop (headStr.length + s)) with
            | .error e => .error e
            | .ok (st, bufR, m) =>
              .ok (st, buf2.take (headStr.length + s) ++ bufR, (w + m) + s)
          else
            match cbeEncode fuel (inner.drop s) [13, 10] last
                (buf2.drop (headStr.length + s)) with
            | .error e => .error e
            | .ok (st, bufR, m) =>
              .ok (st, buf2.take (headStr.length + s) ++ bufR, (w + m) + s)

/-- One `ChunkedBodyEncoder::encode` call with sufficient fuel. -/
def chunkedBodyEncode (inner delim last buf : List Nat) :
    Except ErrKind ((List Nat × List Nat × List Nat) × List Nat × Nat) :=
  cbeEncode (buf.length + 1) inner delim last buf

/-- Sanity: the first calls of the crate's `chunked_body_encoder_works`
test.  A 1-byte buffer gets the `'0'` filler; a 4-byte buffer produces
`1\r\na` with the two-byte chunk terminator queued; a 21-byte buffer with
that terminator queued and 15 payload bytes left produces
`\r\n0f\r\n` followed by the payload and queues the last-chunk suffix. -/
theorem chunkedBodyEncode_test_vectors :
    chunkedBodyEncode (List.replicate 20 97) [] [] [0] =
      .ok ((List.replicate 20 97, [], []), [48], 1) ∧
      chunkedBodyEncode (List.replicate 20 97) [] [] (List.replicate 4 0) =
        .ok ((List.replicate 19 97, [13, 10], []), bytesOf "1\r\na", 4) ∧
      chunkedBodyEncode (List.replicate 15 97) [13, 10] []
          (List.replicate 21 0) =
        .ok (([], [], [13, 10, 48, 13, 10, 13, 10]),
          bytesOf "\r\n0f\r\n" ++ List.replicate 15 97, 21) :=
  ⟨by decide, by decide, by decide⟩

theorem writeAt_length (buf : List Nat) (pos : Nat) (data : List Nat) :
    (writeAt buf pos data).length = buf.length := by
  simp [writeAt]
  omega

theorem writeAt_of_fits (buf : List Nat) (pos : Nat) (data : List Nat)
    (h : pos + data.length ≤ buf.length) :
    writeAt buf pos data = buf.take pos ++ data ++ buf.drop (pos + data.length) := by
  unfold writeAt
  rw [List.take_of_length_le (show data.length ≤ buf.length - pos by omega)]

theorem hexStrPadded_length (width n : Nat) :
    (hexStrPadded width n).length = max width (hexDigitsLen n) := by
  simp [hexStrPadded]

theorem hexLenAux_le (fuel : Nat) : ∀ (k n : Nat), n < 16 ^ k → k ≤ fuel →
    hexLenAux fuel n ≤ k := by
  induction fuel with
  | zero => intro k n _ _; simp [hexLenAux]
  | succ fuel ih =>
    intro k n hn hk
    unfold hexLenAux
    by_cases h0 : n = 0
    · simp [h0]
    · rw [if_neg h0]
      obtain ⟨k', rfl⟩ : ∃ k', k = k' + 1 := by
        match k, hn with
        | 0, hn => exact absurd (by omega : n = 0) h0
        | k' + 1, _ => exact ⟨k', rfl⟩
      have hdiv : n / 16 < 16 ^ k' := by
        rw [Nat.div_lt_iff_lt_mul (by norm_num)]
        calc n < 16 ^ (k' + 1) := hn
          _ = 16 ^ k' * 16 := by ring
      exact Nat.succ_le_succ (ih k' (n / 16) hdiv (by omega))

theorem hexDigitsLen_le (n k : Nat) (hk : 1 ≤ k) (hk128 : k ≤ 128)
    (h : n < 16 ^ k) : hexDigitsLen n ≤ k := by
  unfold hexDigitsLen
  split
  · exact hk
  · exact hexLenAux_le 128 k n h hk128

theorem chunkHeadWidth_bounds (L : Nat) (h : 4 ≤ L) :
    3 ≤ chunkHeadWidth L ∧ chunkHeadWidth L ≤ 10 ∧ chunkHeadWidth L + 1 ≤ L := by
  unfold chunkHeadWidth
  split_ifs <;> omega

theorem cbe_last_eval (fuel : Nat) (hfuel : fuel ≠ 0)
    (inner delim last buf : List Nat) (hlast : last ≠ []) :
    cbeEncode fuel inner delim last buf =
      .ok ((inner, delim, last.drop (min last.length buf.length)),
        writeAt buf 0 (last.take (min last.length buf.length)),
        min last.length buf.length) := by
  obtain ⟨f, rfl⟩ : ∃ f, fuel = f + 1 := ⟨fuel - 1, by omega⟩
  simp [cbeEncode, hlast]

theorem cbe_delim_empty_buf (fuel : Nat) (hfuel : fuel ≠ 0)
    (inner delim : List Nat) (hdelim : delim ≠ []) :
    cbeEncode fuel inner delim [] [] = .ok ((inner, delim, []), [], 0) := by
  obtain ⟨f, rfl⟩ : ∃ f, fuel = f + 1 := ⟨fuel - 1, by omega⟩
  simp [cbeEncode, hdelim, writeAt]

theorem cbe_main_step (fuel : Nat) (inner buf : List Nat)
    (hinner : inner ≠ []) (hbuf : 4 ≤ buf.length)
    (hs0 : min inner.length (buf.length - chunkHeadWidth buf.length) ≠ 0)
    (hple : ¬ (buf.length < (hexStrPadded (chunkHeadWidth buf.length - 2)
      (min inner.length (buf.length - chunkHeadWidth buf.length))).length + 2)) :
    cbeEncode (fuel + 1) inner [] [] buf =
      (let w := chunkHeadWidth buf.length
       let s := min inner.length (buf.length - w)
       let hs := hexStrPadded (w - 2) s ++ [13, 10]
       let buf2 := writeAt (writeAt buf w (inner.take s)) 0 hs
       if inner.drop s = [] ∧ s ≠ 0 then
         match cbeEncode fuel (inner.drop s) [] [13, 10, 48, 13, 10, 13, 10]
             (buf2.drop (hs.length + s)) with
         | .error e => .error e
         | .ok (st, bufR, m) => .ok (st, buf2.take (hs.length + s) ++ bufR, (w + m) + s)
       else
         match cbeEncode fuel (inner.drop s) [13, 10] [] (buf2.drop (hs.length + s)) with
         | .error e => .error e
         | .ok (st, bufR, m) => .ok (st, buf2.take (hs.length + s) ++ bufR, (w + m) + s)) := by
  have h4 : ¬ buf.length < 4 := by omega
  conv_lhs => unfold cbeEncode
  simp only [ne_eq, not_true_eq_false, if_false, hinner, h4, hs0, hple, if_true,
    not_false_eq_true, ite_false, ite_true, List.length_append, List.length_cons,
    List.length_nil]

theorem cbe_eval_fits (inner buf : List Nat)
    (hinner : inner ≠ []) (hbuf : 4 ≤ buf.length)
    (hfit : inner.length ≤ buf.length - chunkHeadWidth buf.length)
    (hple : ¬ (buf.length <
      (hexStrPadded (chunkHeadWidth buf.length - 2) inner.length).length + 2)) :
    cbeEncode (buf.length + 1) inner [] [] buf =
      (let w := chunkHeadWidth buf.length
       let s := inner.length
       let hs := hexStrPadded (w - 2) s ++ [13, 10]
       let buf2 := writeAt (writeAt buf w inner) 0 hs
       let k := min 7 (buf.length - (hs.length + s))
       .ok (([], [], ([13, 10, 48, 13, 10, 13, 10] : List Nat).drop k),
         buf2.take (hs.length + s) ++
           writeAt (buf2.drop (hs.length + s)) 0
             (([13, 10, 48, 13, 10, 13, 10] : List Nat).take k),
         (w + k) + s)) := by
  have hmin : min inner.length (buf.length - chunkHeadWidth buf.length) = inner.length :=
    Nat.min_eq_left hfit
  have hlen0 : inner.length ≠ 0 := by
    simpa [List.length_eq_zero] using hinner
  have hs0 : min inner.length (buf.length - chunkHeadWidth buf.length) ≠ 0 := by
    rw [hmin]; exact hlen0
  have hple' : ¬ (buf.length < (hexStrPadded (chunkHeadWidth buf.length - 2)
      (min inner.length (buf.length - chunkHeadWidth buf.length))).length + 2) := by
    rw [hmin]; exact hple
  rw [cbe_main_step buf.length inner buf hinner hbuf hs0 hple']
  simp only [hmin, List.take_length, List.drop_length, ne_eq, and_true,
    hlen0, not_false_eq_true, and_self, if_true]
  rw [cbe_last_eval buf.length (by omega) _ _ _ _ (by decide)]
  have hdl : (writeAt (writeAt buf (chunkHeadWidth buf.length) inner) 0
      (hexStrPadded (chunkHeadWidth buf.length - 2) inner.length ++ [13, 10])).length
      = buf.length := by
    rw [writeAt_length, writeAt_length]
  simp only [List.length_drop, hdl, List.length_cons, List.length_nil]

theorem cbe_eval_nofit (inner buf : List Nat)
    (hinner : inner ≠ []) (hbuf : 4 ≤ buf.length)
    (hbig : buf.length - chunkHeadWidth buf.length < inner.length)
    (hple : ¬ (buf.length < (hexStrPadded (chunkHeadWidth buf.length - 2)
      (buf.length - chunkHeadWidth buf.length)).length + 2)) :
    cbeEncode (buf.length + 1) inner [] [] buf =
      (let w := chunkHeadWidth buf.length
       let s := buf.length - w
       let hs := hexStrPadded (w - 2) s ++ [13, 10]
       let buf2 := writeAt (writeAt buf w (inner.take s)) 0 hs
       .ok ((inner.drop s, [13, 10], []), buf2.take (hs.length + s), w + s)) := by
  have hwb := chunkHeadWidth_bounds buf.length hbuf
  have hmin : min inner.length (buf.length - chunkHeadWidth buf.length) =
      buf.length - chunkHeadWidth buf.length := Nat.min_eq_right (Nat.le_of_lt hbig)
  have hs0 : min inner.length (buf.length - chunkHeadWidth buf.length) ≠ 0 := by
    rw [hmin]; omega
  have hple' : ¬ (buf.length < (hexStrPadded (chunkHeadWidth buf.length - 2)
      (min inner.length (buf.length - chunkHeadWidth buf.length))).length + 2) := by
    rw [hmin]; exact hple
  rw [cbe_main_step buf.length inner buf hinner hbuf hs0 hple']
  simp only [hmin]
  rw [if_neg (by
    rintro ⟨hd, -⟩
    rw [List.drop_eq_nil_iff] at hd
    omega)]
  have hdrop : (writeAt (writeAt buf (chunkHeadWidth buf.length)
        (inner.take (buf.length - chunkHeadWidth buf.length))) 0
        (hexStrPadded (chunkHeadWidth buf.length - 2)
          (buf.length - chunkHeadWidth buf.length) ++ [13, 10])).drop
        ((hexStrPadded (chunkHeadWidth buf.length - 2)
          (buf.length - chunkHeadWidth buf.length) ++ [13, 10]).length +
          (buf.length - chunkHeadWidth buf.length)) = [] := by
    apply List.drop_of_length_le
    rw [writeAt_length, writeAt_length, List.length_append, hexStrPadded_length]
    have := Nat.le_max_left (chunkHeadWidth buf.length - 2)
      (hexDigitsLen (buf.length - chunkHeadWidth buf.length))
    simp only [List.length_cons, List.length_nil]
    omega
  rw [hdrop, cbe_delim_empty_buf buf.length (by omega) _ _ (by decide)]
  simp

theorem writeAt_writeAt_decomp (buf data hsx : List Nat) (w : Nat)
    (hdata : w + data.length ≤ buf.length) (hhsx : hsx.length = w) :
    writeAt (writeAt buf w data) 0 hsx =
      hsx ++ data ++ buf.drop (w + data.length) := by
  have hw : w ≤ buf.length := by omega
  rw [writeAt_of_fits buf w data hdata]
  rw [writeAt_of_fits _ 0 hsx (by
    simp only [List.length_append, List.length_take, List.length_drop, Nat.zero_add]
    omega)]
  rw [List.take_zero, List.nil_append, Nat.zero_add, hhsx, List.append_assoc,
    List.drop_append_of_le_length (by
      simp only [List.length_take]
      omega),
    List.drop_of_length_le (l := buf.take w) (by
      simp only [List.length_take]
      omega),
    List.nil_append, ← List.append_assoc]


theorem take_drop_chunk {α : Type} (l1 l2 : List α) (k : Nat) :
    ((l1 ++ l2).take (l1.length + k)).drop l1.length = l2.take k := by
  rw [List.take_append, List.drop_append_of_le_length (Nat.le_refl _),
    List.drop_length, List.nil_append]

theorem take_drop_chunk_len {α : Type} (l1 l2 : List α) (n k : Nat)
    (h : l1.length = n) : ((l1 ++ l2).take (n + k)).drop n = l2.take k := by
  subst h
  exact take_drop_chunk l1 l2 k

/-- C5 (amended): under the conditions of the claim — no queued delimiter
bytes, a non-idle inner encoder and an output buffer of length `L >= 4` —
and provided the payload size's hex representation fits the head field
(`s < 16 ^ (w - 2)`, which holds for every `L <= 10 + 0xFFFFFFFF`), one
`ChunkedBodyEncoder::encode` call chooses the total head width `w` from
the claimed size table, writes the zero-padded lowercase hex of the
payload size `s` in bytes `0 .. w-2`, `\r\n` in bytes `w-2 .. w` and the
payload in bytes `w .. w+s`, and the output stream continues (partly in
this same call, the rest queued in the `delim`/`last` encoders) with
`\r\n0\r\n\r\n` when the inner encoder just became idle, or with the
two-byte `\r\n` chunk terminator otherwise. -/
theorem chunkedBodyEncoder_layout (inner buf : List Nat)
    (st' : List Nat × List Nat × List Nat) (buf' : List Nat) (cnt : Nat)
    (hinner : inner ≠ []) (hbuf : 4 ≤ buf.length)
    (hhex : min inner.length (buf.length - chunkHeadWidth buf.length) <
      16 ^ (chunkHeadWidth buf.length - 2))
    (heq : chunkedBodyEncode inner [] [] buf = .ok (st', buf', cnt)) :
    (let w := chunkHeadWidth buf.length
     let s := min inner.length (buf.length - w)
     w = (if buf.length ≤ 3 + 0xF then 3
          else if buf.length ≤ 4 + 0xFF then 4
          else if buf.length ≤ 5 + 0xFFF then 5
          else if buf.length ≤ 6 + 0xFFFF then 6
          else if buf.length ≤ 7 + 0xFFFFF then 7
          else if buf.length ≤ 8 + 0xFFFFFF then 8
          else if buf.length ≤ 9 + 0xFFFFFFF then 9
          else 10) ∧
     (hexStrPadded (w - 2) s).length = w - 2 ∧
     buf'.take (w + s) = hexStrPadded (w - 2) s ++ [13, 10] ++ inner.take s ∧
     (buf'.take cnt).drop (w + s) ++ st'.2.1 ++ st'.2.2 =
       (if inner.drop s = [] then [13, 10, 48, 13, 10, 13, 10] else [13, 10])) := by
  simp only
  obtain ⟨hw3, hw10, hwL⟩ := chunkHeadWidth_bounds buf.length hbuf
  have hdl := hexDigitsLen_le
    (min inner.length (buf.length - chunkHeadWidth buf.length))
    (chunkHeadWidth buf.length - 2) (by omega) (by omega) hhex
  have hlen : (hexStrPadded (chunkHeadWidth buf.length - 2)
      (min inner.length (buf.length - chunkHeadWidth buf.length))).length =
      chunkHeadWidth buf.length - 2 := by
    rw [hexStrPadded_length]
    exact Nat.max_eq_left hdl
  unfold chunkedBodyEncode at heq
  by_cases hfit : inner.length ≤ buf.length - chunkHeadWidth buf.length
  · have hS : min inner.length (buf.length - chunkHeadWidth buf.length) =
        inner.length := Nat.min_eq_left hfit
    rw [hS] at hhex hlen ⊢
    rw [cbe_eval_fits inner buf hinner hbuf hfit (by rw [hlen]; omega)] at heq
    simp only at heq
    cases heq
    have hhsl : (hexStrPadded (chunkHeadWidth buf.length - 2) inner.length ++
        [13, 10]).length = chunkHeadWidth buf.length := by
      rw [List.length_append, hlen]
      simp only [List.length_cons, List.length_nil]
      omega
    have hdecomp : writeAt (writeAt buf (chunkHeadWidth buf.length) inner) 0
        (hexStrPadded (chunkHeadWidth buf.length - 2) inner.length ++ [13, 10]) =
        (hexStrPadded (chunkHeadWidth buf.length - 2) inner.length ++ [13, 10]) ++
          inner ++ buf.drop (chunkHeadWidth buf.length + inner.length) :=
      writeAt_writeAt_decomp buf inner _ (chunkHeadWidth buf.length)
        (by omega) hhsl
    refine ⟨rfl, hlen, ?_, ?_⟩
    · rw [hdecomp, hhsl]
      rw [List.take_append_of_le_length (by
        simp only [List.length_take, List.length_append, List.length_drop, hhsl]
        omega)]
      rw [List.take_take, Nat.min_self, List.append_assoc]
      rw [show chunkHeadWidth buf.length + inner.length =
        (hexStrPadded (chunkHeadWidth buf.length - 2) inner.length ++
          [13, 10]).length + inner.length from by rw [hhsl]]
      rw [List.take_append]
      rw [List.take_append_of_le_length (Nat.le_refl _)]
    · rw [hdecomp, hhsl, List.drop_length, if_pos rfl]
      have hXlen : ((((hexStrPadded (chunkHeadWidth buf.length - 2) inner.length ++
          [13, 10]) ++ inner ++
          buf.drop (chunkHeadWidth buf.length + inner.length)).take
          (chunkHeadWidth buf.length + inner.length))).length =
          chunkHeadWidth buf.length + inner.length := by
        simp only [List.length_take, List.length_append, List.length_drop, hhsl]
        omega
      rw [show chunkHeadWidth buf.length +
          min 7 (buf.length - (chunkHeadWidth buf.length + inner.length)) +
          inner.length =
          (chunkHeadWidth buf.length + inner.length) +
          min 7 (buf.length - (chunkHeadWidth buf.length + inner.length)) from by
        omega]
      rw [take_drop_chunk_len _ _ _ _ hXlen]
      have hYlen : ((((hexStrPadded (chunkHeadWidth buf.length - 2) inner.length ++
          [13, 10]) ++ inner ++
          buf.drop (chunkHeadWidth buf.length + inner.length)).drop
          (chunkHeadWidth buf.length + inner.length))).length =
          buf.length - (chunkHeadWidth buf.length + inner.length) := by
        simp only [List.length_drop, List.length_append, hhsl]
        omega
      have hk7 : (([13, 10, 48, 13, 10, 13, 10] : List Nat).take
          (min 7 (buf.length - (chunkHeadWidth buf.length + inner.length)))).length =
          min 7 (buf.length - (chunkHeadWidth buf.length + inner.length)) := by
        simp only [List.length_take, List.length_cons, List.length_nil]
        omega
      rw [writeAt_of_fits _ 0 _ (by
        rw [hYlen, hk7]
        omega)]
      rw [List.take_zero, List.nil_append]
      rw [List.take_append_of_le_length (by rw [hk7])]
      rw [List.take_take, Nat.min_self, List.append_nil, List.take_append_drop]
  · have hbig : buf.length - chunkHeadWidth buf.length < inner.length := by omega
    have hS : min inner.length (buf.length - chunkHeadWidth buf.length) =
        buf.length - chunkHeadWidth buf.length :=
      Nat.min_eq_right (Nat.le_of_lt hbig)
    rw [hS] at hhex hlen ⊢
    rw [cbe_eval_nofit inner buf hinner hbuf hbig (by rw [hlen]; omega)] at heq
    simp only at heq
    cases heq
    have hhsl : (hexStrPadded (chunkHeadWidth buf.length - 2)
        (buf.length - chunkHeadWidth buf.length) ++ [13, 10]).length =
        chunkHeadWidth buf.length := by
      rw [List.length_append, hlen]
      simp only [List.length_cons, List.length_nil]
      omega
    have htkl : (inner.take (buf.length - chunkHeadWidth buf.length)).length =
        buf.length - chunkHeadWidth buf.length := by
      rw [List.length_take]
      omega
    have hdecomp : writeAt (writeAt buf (chunkHeadWidth buf.length)
        (inner.take (buf.length - chunkHeadWidth buf.length))) 0
        (hexStrPadded (chunkHeadWidth buf.length - 2)
          (buf.length - chunkHeadWidth buf.length) ++ [13, 10]) =
        (hexStrPadded (chunkHeadWidth buf.length - 2)
          (buf.length - chunkHeadWidth buf.length) ++ [13, 10]) ++
          inner.take (buf.length - chunkHeadWidth buf.length) ++
          buf.drop (chunkHeadWidth buf.length +
            (inner.take (buf.length - chunkHeadWidth buf.length)).length) :=
      writeAt_writeAt_decomp buf _ _ (chunkHeadWidth buf.length)
        (by rw [htkl]; omega) hhsl
    refine ⟨rfl, hlen, ?_, ?_⟩
    · rw [hdecomp, hhsl, htkl]
      rw [List.take_take, Nat.min_self, List.append_assoc]
      rw [show chunkHeadWidth buf.length + (buf.length - chunkHeadWidth buf.length) =
        (hexStrPadded (chunkHeadWidth buf.length - 2)
          (buf.length - chunkHeadWidth buf.length) ++ [13, 10]).length +
          (buf.length - chunkHeadWidth buf.length) from by rw [hhsl]]
      rw [List.take_append]
      rw [List.take_append_of_le_length (by rw [htkl])]
      rw [List.take_take, Nat.min_self]
    · have hne : inner.drop (buf.length - chunkHeadWidth buf.length) ≠ [] := by
        rw [ne_eq, List.drop_eq_nil_iff]
        omega
      rw [if_neg hne, hdecomp, hhsl, htkl]
      rw [List.take_take, Nat.min_self]
      rw [List.drop_of_length_le (by
        simp only [List.length_take, List.length_append, List.length_drop, hhsl]
        omega)]
      rw [List.nil_append, List.append_nil]

/-- Witness for `chunkedBodyEncoder_layout`: a 2-byte payload source and a
4-byte buffer give head width 3, one payload byte, the layout `1\r\na` and
a queued `\r\n` terminator. -/
theorem chunkedBodyEncoder_layout_witness :
    ([49, 13, 10, 97] : List Nat).take (3 + 1) =
      hexStrPadded 1 1 ++ [13, 10] ++ ([97, 97] : List Nat).take 1 ∧
      (([49, 13, 10, 97] : List Nat).take 4).drop (3 + 1) ++ [13, 10] ++
        ([] : List Nat) = [13, 10] := by
  have h := chunkedBodyEncoder_layout [97, 97] (List.replicate 4 0)
    ([97], [13, 10], []) [49, 13, 10, 97] 4 (by decide) (by decide) (by decide)
    (by decide)
  exact ⟨h.2.2.1, h.2.2.2⟩

/-- Counterexample to the claimed head layout as stated: with a
`2^32 + 10`-byte buffer the head field is `w - 2 = 8` hex digits wide, but
the chunk size `2^32` needs 9 digits, so `write!` emits 9 digits and the
two bytes at positions `w - 2, w - 1` of the output are `0\r` (`[48, 13]`),
not the claimed `\r\n`.  The 9-digit head also overwrites the first payload
byte.  Proved symbolically from `cbe_eval_fits` — the buffer is 4 GiB, so
the result is never evaluated. -/
theorem chunkedBodyEncoder_head_overflow :
    (match chunkedBodyEncode (List.replicate (2 ^ 32) 97) [] []
        (List.replicate (2 ^ 32 + 10) 0) with
     | .ok (_, bufO, _) => (bufO.drop 8).take 2
     | .error _ => []) = [48, 13] ∧ ([48, 13] : List Nat) ≠ [13, 10] := by
  set I : List Nat := List.replicate (2 ^ 32) 97 with hI
  set B : List Nat := List.replicate (2 ^ 32 + 10) 0 with hB
  have hIlen : I.length = 2 ^ 32 := by rw [hI, List.length_replicate]
  have hBlen : B.length = 2 ^ 32 + 10 := by rw [hB, List.length_replicate]
  have hw : chunkHeadWidth (2 ^ 32 + 10) = 10 := by decide
  have hhex : hexStrPadded 8 (2 ^ 32) = [49, 48, 48, 48, 48, 48, 48, 48, 48] := by
    decide
  have hinner : I ≠ [] := by
    intro h
    have h0 := congrArg List.length h
    rw [hIlen] at h0
    exact absurd h0 (by decide)
  have hbuf : 4 ≤ B.length := by rw [hBlen]; norm_num
  have hfit : I.length ≤ B.length - chunkHeadWidth B.length := by
    rw [hIlen, hBlen, hw]; norm_num
  have hple : ¬ (B.length <
      (hexStrPadded (chunkHeadWidth B.length - 2) I.length).length + 2) := by
    rw [hIlen, hBlen, hw]
    rw [show (10 : Nat) - 2 = 8 from rfl, hhex]
    norm_num
  have heval := cbe_eval_fits I B hinner hbuf hfit hple
  have writeAt_zero_nil : ∀ b : List Nat, writeAt b 0 [] = b := fun b => by
    simp [writeAt]
  have hres : chunkedBodyEncode I [] [] B =
      .ok (([], [], [13, 10, 48, 13, 10, 13, 10]),
        writeAt (writeAt B 10 I) 0
          ([49, 48, 48, 48, 48, 48, 48, 48, 48] ++ [13, 10]),
        10 + 2 ^ 32) := by
    unfold chunkedBodyEncode
    rw [heval]
    simp only [hIlen, hBlen, hw]
    rw [show (10 : Nat) - 2 = 8 from rfl, hhex]
    have h11 : (([49, 48, 48, 48, 48, 48, 48, 48, 48] : List Nat) ++
      [13, 10]).length = 11 := by decide
    have hk0 : min 7 (2 ^ 32 + 10 - (11 + 2 ^ 32)) = 0 := by decide
    rw [h11, hk0]
    rw [List.drop_zero, List.take_zero, writeAt_zero_nil, List.take_append_drop,
      Nat.add_zero]
  refine ⟨?_, by decide⟩
  rw [hres]
  show ((writeAt (writeAt B 10 I) 0
      ([49, 48, 48, 48, 48, 48, 48, 48, 48] ++ [13, 10])).drop 8).take 2 = [48, 13]
  have hlen1 : (writeAt B 10 I).length = B.length := writeAt_length B 10 I
  have houter := writeAt_of_fits (writeAt B 10 I) 0
    ([49, 48, 48, 48, 48, 48, 48, 48, 48] ++ [13, 10])
    (by rw [hlen1, hBlen]; norm_num)
  rw [houter, List.take_zero, List.nil_append]
  rw [List.drop_append_of_le_length (by decide :
    (8 : Nat) ≤ (([49, 48, 48, 48, 48, 48, 48, 48, 48] : List Nat) ++ [13, 10]).length)]
  have hd8 : (([49, 48, 48, 48, 48, 48, 48, 48, 48] : List Nat) ++
    [13, 10]).drop 8 = [48, 13, 10] := by decide
  rw [hd8]
  rw [List.take_append_of_le_length (by decide :
    (2 : Nat) ≤ ([48, 13, 10] : List Nat).length)]
  decide
